import Mathlib

/-!
Verification of the KREVOS restaurant system (src/app.py): a shallow
embedding of the inventory/recipe/costing engine and its report layer.

Conventions of the embedding:
* SQL REAL columns are modelled as `ℚ` (exact arithmetic).
* The `inventory` table (item is the primary key) is an association list
  `List (String × InventoryItem)`; `menu` likewise.
* `recipes`, `sales` and `expenses` are plain lists (no key).
* Python code that can raise (division by zero in `update_inventory`,
  the `.values[0]` price lookup in the POS block) is modelled with
  `Except` / `Option`.
-/

namespace KREVOS

/-- One row of the `inventory` table, minus its primary key `item`. -/
structure InventoryItem where
  quantity : ℚ
  unit : String
  total_cost : ℚ
  cost_per_unit : ℚ
deriving Repr, DecidableEq

/-- The `inventory` table: `item` is the primary key. -/
abbrev Inventory := List (String × InventoryItem)

/-- One row of the `recipes` table. -/
structure RecipeEntry where
  dish : String
  ingredient : String
  amount : ℚ
  unit : String
deriving Repr, DecidableEq

/-- One row of the `sales` table. -/
structure SaleRecord where
  date : String
  dish : String
  qty : ℤ
  total : ℚ
deriving Repr, DecidableEq

/-- One row of the `expenses` table. -/
structure ExpenseRecord where
  date : String
  category : String
  amount : ℚ
  note : String
deriving Repr, DecidableEq

/-- A line of the `details` list built by `calculate_dish_cost`. -/
structure LineItem where
  ingredient : String
  usedAmount : ℚ
  cost : ℚ
deriving Repr, DecidableEq

/-- Errors raised by the Python code. -/
inductive Err where
  | divisionByZero
deriving Repr, DecidableEq

/-- `PACKAGING_COST = 10` (app.py line 34). -/
def PACKAGING_COST : ℚ := 10

/-- `FIXED_STAFF_FOOD = 100` (app.py line 37). -/
def FIXED_STAFF_FOOD : ℚ := 100

/-- `FIXED_MANAGER_SALARY = 450` (app.py line 38). -/
def FIXED_MANAGER_SALARY : ℚ := 450

/-- The `conversion` dict of `to_base_unit` (app.py lines 14-20). -/
def conversion : List (String × ℚ) :=
  [("kg", 1000), ("gm", 1), ("litre", 1000), ("ml", 1), ("pieces", 1)]

/-- `to_base_unit(value, unit)` (app.py lines 13-21):
`value * conversion.get(unit, 1)`. -/
def to_base_unit (value : ℚ) (unit : String) : ℚ :=
  value * ((conversion.lookup unit).getD 1)

/-- `base_unit_type(unit)` (app.py lines 23-28). -/
def base_unit_type (unit : String) : String :=
  if unit = "kg" ∨ unit = "gm" then "gm"
  else if unit = "litre" ∨ unit = "ml" then "ml"
  else "pieces"

/-- `update_inventory(item, qty, unit, cost)` (app.py lines 140-153).
If the item is unseen, inserts `(item, qty, unit, cost, cost/qty)`;
Python raises `ZeroDivisionError` when `qty = 0`, modelled as `.error`.
If the item exists, the SQL UPDATE sets quantity, total_cost and
cost_per_unit on the matching row, leaving `unit` untouched; the division
`new_cost / new_qty` raises when `new_qty = 0`. -/
def update_inventory (item : String) (qty : ℚ) (unit : String) (cost : ℚ)
    (inv : Inventory) : Except Err Inventory :=
  match inv.lookup item with
  | none =>
      if qty = 0 then .error .divisionByZero
      else .ok (inv ++ [(item, ⟨qty, unit, cost, cost / qty⟩)])
  | some row =>
      let new_qty := row.quantity + qty
      let new_cost := row.total_cost + cost
      if new_qty = 0 then .error .divisionByZero
      else .ok (inv.map fun p =>
        if p.1 = item then (p.1, ⟨new_qty, p.2.unit, new_cost, new_cost / new_qty⟩) else p)

/-- One `UPDATE inventory SET quantity = quantity - ? WHERE item = ?`
statement (app.py lines 162-166): a no-op when the item has no row. -/
def deduct_one (item : String) (used : ℚ) (inv : Inventory) : Inventory :=
  inv.map fun p =>
    if p.1 = item then (p.1, { p.2 with quantity := p.2.quantity - used }) else p

/-- The `SELECT * FROM recipes WHERE dish=?` result (app.py line 159). -/
def recipeFor (recipes : List RecipeEntry) (dish : String) : List RecipeEntry :=
  recipes.filter (fun e => e.dish == dish)

/-- `deduct_ingredients(dish, qty)` (app.py lines 158-167): for each
recipe row of the dish, subtract `amount * qty` from that ingredient. -/
def deduct_ingredients (recipes : List RecipeEntry) (dish : String) (qty : ℚ)
    (inv : Inventory) : Inventory :=
  (recipeFor recipes dish).foldl
    (fun acc e => deduct_one e.ingredient (e.amount * qty) acc) inv

/-- The claimed invariant of §3: every inventory row satisfies
`cost_per_unit = total_cost / quantity`. -/
def cpuInvariant (inv : Inventory) : Prop :=
  ∀ p ∈ inv, p.2.cost_per_unit = p.2.total_cost / p.2.quantity

/-- The non-quantity columns of the inventory table: for each row its
key together with the stored unit, total_cost and cost_per_unit. -/
def costView (inv : Inventory) : List (String × String × ℚ × ℚ) :=
  inv.map fun p => (p.1, p.2.unit, p.2.total_cost, p.2.cost_per_unit)

/-- Cumulative quantity of a sequence of `(qty, cost)` stock purchases. -/
def qsum (l : List (ℚ × ℚ)) : ℚ := (l.map Prod.fst).sum

/-- Cumulative cost of a sequence of `(qty, cost)` stock purchases. -/
def csum (l : List (ℚ × ℚ)) : ℚ := (l.map Prod.snd).sum

/-- A sequence of `update_inventory` calls on a fixed item and unit,
propagating the Python exception. -/
def addStockSeq (item unit : String) (l : List (ℚ × ℚ)) (inv : Inventory) :
    Except Err Inventory :=
  l.foldlM (fun acc qc => update_inventory item qc.1 unit qc.2 acc) inv

/-- Total recipe amount of `item` in `dish` (the sum over all recipe rows
of the dish naming that ingredient; a single row in the common case). -/
def recipeAmount (recipes : List RecipeEntry) (dish item : String) : ℚ :=
  (((recipeFor recipes dish).filter (fun e => e.ingredient == item)).map
    (fun e => e.amount)).sum

/-- Rounding to 2 decimal places, modelling Python `round(cost, 2)`
(ties are resolved by `round`; Python uses round-half-even on floats —
no claim depends on tie behaviour). -/
def round2 (x : ℚ) : ℚ := (round (x * 100) : ℤ) / 100

/-- One iteration of the `calculate_dish_cost` loop (app.py lines
177-189): skip the row if its ingredient has no inventory record, else
add `cost_per_unit * amount` to the running total and append the line
item with the cost rounded to 2 decimals. -/
def costStep (inv : Inventory) (acc : ℚ × List LineItem) (row : RecipeEntry) :
    ℚ × List LineItem :=
  match inv.lookup row.ingredient with
  | none => acc
  | some it =>
      (acc.1 + it.cost_per_unit * row.amount,
       acc.2 ++ [⟨row.ingredient, row.amount, round2 (it.cost_per_unit * row.amount)⟩])

/-- `calculate_dish_cost(dish)` (app.py lines 172-192): loop over the
dish's recipe rows accumulating `total` and `details`, skipping
ingredients with no inventory row, then add `PACKAGING_COST`. -/
def calculate_dish_cost (recipes : List RecipeEntry) (inv : Inventory)
    (dish : String) : ℚ × List LineItem :=
  let res := (recipeFor recipes dish).foldl (costStep inv) (0, [])
  (res.1 + PACKAGING_COST, res.2)

/-- Whether `expenses` holds a row with the given date and category
(the `SELECT * FROM expenses WHERE date=? AND category=?` emptiness
test of app.py lines 118-121 and 127-130). -/
def hasExpense (expenses : List ExpenseRecord) (date category : String) : Bool :=
  expenses.any fun r => r.date == date && r.category == category

/-- Number of expense rows with the given date and category. -/
def countExpense (expenses : List ExpenseRecord) (date category : String) : ℕ :=
  (expenses.filter fun r => r.date == date && r.category == category).length

/-- One guarded fixed-cost insert (app.py lines 117-124 or 126-133):
when the flag is set and no row with today's date and the category
exists, append one row with the fixed amount and note "Daily fixed". -/
def insertFixed (flag : Bool) (today cat : String) (amt : ℚ)
    (e : List ExpenseRecord) : List ExpenseRecord :=
  if flag && !(hasExpense e today cat) then e ++ [⟨today, cat, amt, "Daily fixed"⟩]
  else e

/-- `add_fixed_costs(staff_food, manager_salary)` (app.py lines 114-135):
insert a "Staff Food" row of 100 and/or a "Manager Salary" row of 450 for
today, each only when no row with that (date, category) pair exists; one
`conn.commit()` covers both inserts. -/
def add_fixed_costs (staff_food manager_salary : Bool) (today : String)
    (expenses : List ExpenseRecord) : List ExpenseRecord :=
  insertFixed manager_salary today "Manager Salary" FIXED_MANAGER_SALARY
    (insertFixed staff_food today "Staff Food" FIXED_STAFF_FOOD expenses)

/-- The whole store (the five SQLite tables). -/
structure State where
  inventory : Inventory
  menu : List (String × ℚ)
  recipes : List RecipeEntry
  sales : List SaleRecord
  expenses : List ExpenseRecord
deriving Repr, DecidableEq

/-- The POS Billing sale block (app.py lines 232-240): look up the menu
price (`.values[0]` raises on a missing dish, modelled as `none`),
compute `total = price * qty`, run `deduct_ingredients`, and append one
sales row for the given date. -/
def sell (st : State) (today dish : String) (qty : ℤ) : Option State :=
  match st.menu.lookup dish with
  | none => none
  | some price =>
      let total := price * (qty : ℚ)
      some { st with
        inventory := deduct_ingredients st.recipes dish (qty : ℚ) st.inventory,
        sales := st.sales ++ [⟨today, dish, qty, total⟩] }

/-- The sequence of committed store states produced by the POS sale
block: `deduct_ingredients` ends with its own `conn.commit()`
(app.py line 167) before the sales INSERT is committed (app.py line 240),
so the store passes through an intermediate committed state. -/
def sell_commit_states (st : State) (today dish : String) (qty : ℤ) :
    List State :=
  match st.menu.lookup dish with
  | none => []
  | some price =>
      let st1 := { st with
        inventory := deduct_ingredients st.recipes dish (qty : ℚ) st.inventory }
      let st2 := { st1 with
        sales := st1.sales ++ [⟨today, dish, qty, price * (qty : ℚ)⟩] }
      [st1, st2]

/-- The sequence of committed store states produced by the Bazar
"Add Inventory" button (app.py lines 288-292): `update_inventory` ends
with its own `conn.commit()` (app.py line 153) before the Bazar expense
INSERT is committed (app.py line 292). -/
def addStock_commit_states (st : State) (today item : String) (qty : ℚ)
    (unit : String) (cost : ℚ) : List State :=
  match update_inventory item qty unit cost st.inventory with
  | .error _ => []
  | .ok inv1 =>
      let st1 := { st with inventory := inv1 }
      let st2 := { st1 with
        expenses := st1.expenses ++ [⟨today, "Bazar", cost, item⟩] }
      [st1, st2]

/-- The sequence of committed store states produced by
`add_fixed_costs`: both inserts are covered by the single
`conn.commit()` at app.py line 135. -/
def add_fixed_costs_commit_states (staff_food manager_salary : Bool)
    (today : String) (st : State) : List State :=
  [{ st with expenses := add_fixed_costs staff_food manager_salary today st.expenses }]

/-- The Daily Report block (app.py lines 261-275): rows of `sales` and
`expenses` with today's exact date, and the displayed net profit
`(sum of totals if any sales else 0) - (sum of amounts if any expenses
else 0)`. -/
def dailyReport (sales : List SaleRecord) (expenses : List ExpenseRecord)
    (today : String) : List SaleRecord × List ExpenseRecord × ℚ :=
  let s := sales.filter (fun r => r.date == today)
  let e := expenses.filter (fun r => r.date == today)
  (s, e,
    (if s.isEmpty then 0 else (s.map (fun r => r.total)).sum) -
    (if e.isEmpty then 0 else (e.map (fun r => r.amount)).sum))

/-- The Monthly Report block (app.py lines 346-351): rows of `sales` and
`expenses` whose date matches `LIKE 'YYYY-MM%'`, i.e. has the month
string as a prefix. -/
def monthlyReport (sales : List SaleRecord) (expenses : List ExpenseRecord)
    (month : String) : List SaleRecord × List ExpenseRecord :=
  (sales.filter (fun r => month.isPrefixOf r.date),
   expenses.filter (fun r => month.isPrefixOf r.date))

end KREVOS

namespace KREVOS

/-- Evaluation of the `conversion` dict lookup with default 1. -/
lemma conversion_getD (unit : String) :
    (conversion.lookup unit).getD 1 = if unit = "kg" ∨ unit = "litre" then 1000 else 1 := by
  by_cases h1 : unit = "kg"
  · subst h1; decide
  by_cases h2 : unit = "gm"
  · subst h2; decide
  by_cases h3 : unit = "litre"
  · subst h3; decide
  by_cases h4 : unit = "ml"
  · subst h4; decide
  by_cases h5 : unit = "pieces"
  · subst h5; decide
  have e1 : (unit == "kg") = false := beq_eq_false_iff_ne.mpr h1
  have e2 : (unit == "gm") = false := beq_eq_false_iff_ne.mpr h2
  have e3 : (unit == "litre") = false := beq_eq_false_iff_ne.mpr h3
  have e4 : (unit == "ml") = false := beq_eq_false_iff_ne.mpr h4
  have e5 : (unit == "pieces") = false := beq_eq_false_iff_ne.mpr h5
  simp [conversion, List.lookup, e1, e2, e3, e4, e5, h1, h3]

/-- C8: the Unit Normalizer is a pure total function: `to_base_unit`
multiplies by 1000 for kg and litre and by 1 for gm, ml, pieces and any
unrecognized unit; `base_unit_type` maps kg/gm to "gm", litre/ml to "ml",
and everything else to "pieces". -/
theorem unit_normalizer_spec (value : ℚ) (unit : String) :
    to_base_unit value unit
      = value * (if unit = "kg" ∨ unit = "litre" then 1000 else 1)
    ∧ base_unit_type "kg" = "gm" ∧ base_unit_type "gm" = "gm"
    ∧ base_unit_type "litre" = "ml" ∧ base_unit_type "ml" = "ml"
    ∧ (unit ≠ "kg" → unit ≠ "gm" → unit ≠ "litre" → unit ≠ "ml" →
        base_unit_type unit = "pieces") := by
  refine ⟨?_, rfl, rfl, rfl, rfl, ?_⟩
  · rw [to_base_unit, conversion_getD]
  · intro h1 h2 h3 h4
    simp [base_unit_type, h1, h2, h3, h4]

/-- Witness for `unit_normalizer_spec` at unit "oz" (unrecognized). -/
theorem unit_normalizer_spec_witness :
    to_base_unit 5 "oz" = 5 * (if ("oz" : String) = "kg" ∨ ("oz" : String) = "litre" then 1000 else 1)
    ∧ base_unit_type "oz" = "pieces" :=
  ⟨(unit_normalizer_spec 5 "oz").1,
   (unit_normalizer_spec 5 "oz").2.2.2.2.2 (by decide) (by decide) (by decide) (by decide)⟩

end KREVOS

namespace KREVOS

/-- Looking up `item` after a map that rewrites only the rows keyed
`item` (keeping the key) applies the rewrite to the lookup result. -/
lemma lookup_map_update (inv : Inventory) (item : String)
    (g : String × InventoryItem → InventoryItem) :
    (inv.map fun p => if p.1 = item then (p.1, g p) else p).lookup item
      = (inv.find? (fun p => p.1 == item)).map g := by
  induction inv with
  | nil => rfl
  | cons hd tl ih =>
      obtain ⟨k, v⟩ := hd
      by_cases h : k = item
      · subst h
        have hmap : List.map (fun p => if p.1 = k then (p.1, g p) else p) ((k, v) :: tl)
            = (k, g (k, v)) :: List.map (fun p => if p.1 = k then (p.1, g p) else p) tl := by
          simp
        rw [hmap]
        simp [List.lookup_cons]
      · have hb : (k == item) = false := beq_eq_false_iff_ne.mpr h
        have hb2 : (item == k) = false := beq_eq_false_iff_ne.mpr (Ne.symm h)
        have hmap : List.map (fun p => if p.1 = item then (p.1, g p) else p) ((k, v) :: tl)
            = (k, v) :: List.map (fun p => if p.1 = item then (p.1, g p) else p) tl := by
          simp [h]
        rw [hmap]
        simp [List.lookup_cons, hb, hb2, ih]

/-- `List.lookup` as a `find?` over keys. -/
lemma lookup_eq_find (inv : Inventory) (item : String) :
    inv.lookup item = (inv.find? (fun p => p.1 == item)).map (fun p => p.2) := by
  induction inv with
  | nil => rfl
  | cons hd tl ih =>
      obtain ⟨k, v⟩ := hd
      by_cases h : k = item
      · subst h
        simp [List.lookup_cons]
      · have hb : (k == item) = false := beq_eq_false_iff_ne.mpr h
        have hb2 : (item == k) = false := beq_eq_false_iff_ne.mpr (Ne.symm h)
        simp [List.lookup_cons, hb, hb2, ih]

end KREVOS

namespace KREVOS

/-- C7: stocking an unseen item via `update_inventory` fails with the
DivisionByZero-class error exactly when `qty = 0`; every other qty
succeeds. -/
theorem update_inventory_fresh_div_by_zero (item unit : String) (qty cost : ℚ)
    (inv : Inventory) (hfresh : inv.lookup item = none) :
    update_inventory item qty unit cost inv = .error .divisionByZero ↔ qty = 0 := by
  rw [update_inventory, hfresh]
  by_cases h : qty = 0
  · simp [h]
  · simp [h]

/-- Witness for `update_inventory_fresh_div_by_zero`: on the empty
inventory, stocking qty 0 fails and stocking qty 2 succeeds. -/
theorem update_inventory_fresh_div_by_zero_witness :
    ([] : Inventory).lookup "Oil" = none
    ∧ (update_inventory "Oil" 0 "kg" 400 [] = .error .divisionByZero ↔ (0 : ℚ) = 0)
    ∧ ¬ update_inventory "Oil" 2 "kg" 400 [] = .error .divisionByZero :=
  ⟨rfl, update_inventory_fresh_div_by_zero "Oil" "kg" 0 400 [] rfl,
   fun h => by
    have := (update_inventory_fresh_div_by_zero "Oil" "kg" 2 400 [] rfl).mp h
    norm_num at this⟩

/-- C10: `update_inventory` on an existing item ignores the `unit`
argument entirely: the result does not depend on it, every row's stored
unit is unchanged, and the item's new row adds `qty` and `cost` raw onto
the stored numbers with the stored unit kept. -/
theorem update_inventory_existing_ignores_unit (item : String) (qty : ℚ)
    (u1 u2 : String) (cost : ℚ) (inv : Inventory) (row : InventoryItem)
    (h : inv.lookup item = some row) (inv' : Inventory)
    (hok : update_inventory item qty u1 cost inv = .ok inv') :
    update_inventory item qty u1 cost inv = update_inventory item qty u2 cost inv
    ∧ inv'.map (fun p => (p.1, p.2.unit)) = inv.map (fun p => (p.1, p.2.unit))
    ∧ inv'.lookup item = some ⟨row.quantity + qty, row.unit, row.total_cost + cost,
        (row.total_cost + cost) / (row.quantity + qty)⟩ := by
  have hu : ∀ u : String, update_inventory item qty u cost inv
      = update_inventory item qty u1 cost inv := by
    intro u
    rw [update_inventory, h, update_inventory, h]
  refine ⟨(hu u2).symm, ?_, ?_⟩
  · rw [update_inventory, h] at hok
    by_cases hz : row.quantity + qty = 0
    · simp [hz] at hok
    · simp only [hz, if_false, Except.ok.injEq] at hok
      subst hok
      rw [List.map_map]
      apply List.map_congr_left
      intro p _
      by_cases hp : p.1 = item <;> simp [hp, Function.comp]
  · rw [update_inventory, h] at hok
    by_cases hz : row.quantity + qty = 0
    · simp [hz] at hok
    · simp only [hz, if_false, Except.ok.injEq] at hok
      subst hok
      have := lookup_map_update inv item (fun p =>
        ⟨row.quantity + qty, p.2.unit, row.total_cost + cost,
         (row.total_cost + cost) / (row.quantity + qty)⟩)
      rw [this]
      rw [lookup_eq_find] at h
      obtain ⟨q, hq1, hq2⟩ : ∃ q, inv.find? (fun p => p.1 == item) = some q ∧ q.2 = row := by
        cases hf : inv.find? (fun p => p.1 == item) with
        | none => rw [hf] at h; simp at h
        | some q => rw [hf] at h; simp at h; exact ⟨q, rfl, h⟩
      have hq3 : q.1 = item := by
        have := List.find?_some hq1
        simpa using this
      rw [hq1]
      simp [hq2, hq3]

/-- Witness for `update_inventory_existing_ignores_unit`: restocking a
"kg" row using unit "gm" adds the raw numbers and keeps unit "kg". -/
theorem update_inventory_existing_ignores_unit_witness :
    ([("Oil", ⟨2, "kg", 400, 200⟩)] : Inventory).lookup "Oil" = some ⟨2, "kg", 400, 200⟩
    ∧ update_inventory "Oil" 3 "gm" 150 [("Oil", ⟨2, "kg", 400, 200⟩)]
        = .ok [("Oil", ⟨5, "kg", 550, 110⟩)]
    ∧ update_inventory "Oil" 3 "gm" 150 [("Oil", ⟨2, "kg", 400, 200⟩)]
        = update_inventory "Oil" 3 "kg" 150 [("Oil", ⟨2, "kg", 400, 200⟩)]
    ∧ ([("Oil", (⟨5, "kg", 550, 110⟩ : InventoryItem))] : Inventory).lookup "Oil"
        = some ⟨(2 : ℚ) + 3, "kg", (400 : ℚ) + 150, ((400 : ℚ) + 150) / ((2 : ℚ) + 3)⟩ := by
  have h1 : ([("Oil", ⟨2, "kg", 400, 200⟩)] : Inventory).lookup "Oil"
      = some ⟨2, "kg", 400, 200⟩ := rfl
  have h2 : update_inventory "Oil" 3 "gm" 150 [("Oil", ⟨2, "kg", 400, 200⟩)]
      = .ok [("Oil", ⟨5, "kg", 550, 110⟩)] := by
    norm_num [update_inventory, List.lookup]
  have main := update_inventory_existing_ignores_unit "Oil" 3 "gm" "kg" 150
    [("Oil", ⟨2, "kg", 400, 200⟩)] ⟨2, "kg", 400, 200⟩ h1 [("Oil", ⟨5, "kg", 550, 110⟩)] h2
  exact ⟨h1, h2, main.1, main.2.2⟩

end KREVOS

namespace KREVOS

/-- A single SQL deduction leaves every column except `quantity`
unchanged on every row. -/
lemma costView_deduct_one (item : String) (used : ℚ) (inv : Inventory) :
    costView (deduct_one item used inv) = costView inv := by
  rw [costView, costView, deduct_one, List.map_map]
  apply List.map_congr_left
  intro p _
  by_cases hp : p.1 = item <;> simp [hp, Function.comp]

/-- `deduct_ingredients` leaves every column except `quantity`
unchanged on every row. -/
lemma costView_deduct_ingredients (recipes : List RecipeEntry) (dish : String)
    (qty : ℚ) (inv : Inventory) :
    costView (deduct_ingredients recipes dish qty inv) = costView inv := by
  rw [deduct_ingredients]
  generalize recipeFor recipes dish = l
  induction l generalizing inv with
  | nil => rfl
  | cons e t ih =>
      rw [List.foldl_cons, ih, costView_deduct_one]

/-- C1 counterexample: starting from the empty store, one purchase of
2 kg of Oil for 400 establishes cost_per_unit 200 = 400/2, but selling a
Burger that uses 1 unit of Oil leaves cost_per_unit at 200 while
total_cost/quantity becomes 400/1: the claimed invariant fails after a
`deduct_ingredients` mutation. -/
theorem cpu_invariant_fails_after_deduct :
    update_inventory "Oil" 2 "kg" 400 [] = .ok [("Oil", ⟨2, "kg", 400, 200⟩)]
    ∧ cpuInvariant [("Oil", ⟨2, "kg", 400, 200⟩)]
    ∧ deduct_ingredients [⟨"Burger", "Oil", 1, "gm"⟩] "Burger" 1
        [("Oil", ⟨2, "kg", 400, 200⟩)] = [("Oil", ⟨1, "kg", 400, 200⟩)]
    ∧ ¬ cpuInvariant [("Oil", ⟨1, "kg", 400, 200⟩)] := by
  refine ⟨by norm_num [update_inventory, List.lookup], ?_, ?_, ?_⟩
  · intro p hp
    simp only [List.mem_singleton] at hp
    subst hp
    norm_num
  · norm_num [deduct_ingredients, recipeFor, deduct_one, List.filter, List.foldl]
  · intro hcon
    have := hcon ("Oil", ⟨1, "kg", 400, 200⟩) (by simp)
    norm_num at this

/-- C1 amended: the invariant `cost_per_unit = total_cost / quantity`
holds after every `update_inventory` mutation, but `deduct_ingredients`
changes only `quantity`, leaving `cost_per_unit`, `total_cost` and `unit`
as they were, so after a sale-driven deduction `cost_per_unit` equals
`total_cost` divided by the pre-deduction quantity, not the current
one. -/
theorem cpu_invariant_after_mutations (item : String) (qty : ℚ) (unit : String)
    (cost : ℚ) (inv inv' : Inventory) (recipes : List RecipeEntry)
    (dish : String) (sqty : ℚ) (hinv : cpuInvariant inv)
    (hok : update_inventory item qty unit cost inv = .ok inv') :
    cpuInvariant inv'
    ∧ costView (deduct_ingredients recipes dish sqty inv) = costView inv := by
  refine ⟨?_, costView_deduct_ingredients recipes dish sqty inv⟩
  rw [update_inventory] at hok
  cases hl : inv.lookup item with
  | none =>
      rw [hl] at hok
      by_cases hz : qty = 0
      · simp [hz] at hok
      · simp only [hz, if_false, Except.ok.injEq] at hok
        subst hok
        intro p hp
        rcases List.mem_append.mp hp with hmem | hmem
        · exact hinv p hmem
        · simp only [List.mem_singleton] at hmem
          subst hmem
          rfl
  | some row =>
      rw [hl] at hok
      by_cases hz : row.quantity + qty = 0
      · simp [hz] at hok
      · simp only [hz, if_false, Except.ok.injEq] at hok
        subst hok
        intro p hp
        rcases List.mem_map.mp hp with ⟨q, hq, hfq⟩
        by_cases hq1 : q.1 = item
        · rw [← hfq]
          simp [hq1]
        · rw [← hfq]
          simp only [hq1, if_false]
          exact hinv q hq

/-- Witness for `cpu_invariant_after_mutations`: the empty store
satisfies the invariant and a first purchase preserves it. -/
theorem cpu_invariant_after_mutations_witness :
    cpuInvariant []
    ∧ update_inventory "Oil" 2 "kg" 400 [] = .ok [("Oil", ⟨2, "kg", 400, 200⟩)]
    ∧ cpuInvariant [("Oil", ⟨2, "kg", 400, 200⟩)]
    ∧ costView (deduct_ingredients [⟨"Burger", "Oil", 1, "gm"⟩] "Burger" 1 [])
        = costView ([] : Inventory) := by
  have h0 : cpuInvariant [] := by intro p hp; simp at hp
  have h1 : update_inventory "Oil" 2 "kg" 400 [] = .ok [("Oil", ⟨2, "kg", 400, 200⟩)] := by
    norm_num [update_inventory, List.lookup]
  have main := cpu_invariant_after_mutations "Oil" 2 "kg" 400 []
    [("Oil", ⟨2, "kg", 400, 200⟩)] [⟨"Burger", "Oil", 1, "gm"⟩] "Burger" 1 h0 h1
  exact ⟨h0, h1, main.1, main.2⟩

end KREVOS

namespace KREVOS

/-- Running a stock sequence on a one-row inventory that holds only the
item keeps one row and accumulates quantity and cost additively, with
`cost_per_unit` recomputed as the quotient at every step. -/
lemma addStockSeq_single (item unit : String) (l : List (ℚ × ℚ)) :
    ∀ (q tc : ℚ) (inv' : Inventory),
      addStockSeq item unit l [(item, ⟨q, unit, tc, tc / q⟩)] = .ok inv' →
      inv' = [(item, ⟨q + qsum l, unit, tc + csum l, (tc + csum l) / (q + qsum l)⟩)] := by
  induction l with
  | nil =>
      intro q tc inv' h
      have h2 : (Except.ok [(item, ⟨q, unit, tc, tc / q⟩)] : Except Err Inventory)
          = .ok inv' := h
      simp only [Except.ok.injEq] at h2
      rw [← h2]
      simp [qsum, csum]
  | cons hd t ih =>
      intro q tc inv' h
      have step : addStockSeq item unit (hd :: t) [(item, ⟨q, unit, tc, tc / q⟩)]
          = (update_inventory item hd.1 unit hd.2 [(item, ⟨q, unit, tc, tc / q⟩)]).bind
              (fun inv1 => addStockSeq item unit t inv1) := rfl
      have hlk : ([(item, ⟨q, unit, tc, tc / q⟩)] : Inventory).lookup item
          = some ⟨q, unit, tc, tc / q⟩ := by simp [List.lookup_cons]
      have hupd : update_inventory item hd.1 unit hd.2 [(item, ⟨q, unit, tc, tc / q⟩)]
          = if q + hd.1 = 0 then .error .divisionByZero
            else .ok [(item, ⟨q + hd.1, unit, tc + hd.2, (tc + hd.2) / (q + hd.1)⟩)] := by
        rw [update_inventory, hlk]
        by_cases hz : q + hd.1 = 0 <;> simp [hz]
      rw [step, hupd] at h
      by_cases hz : q + hd.1 = 0
      · rw [if_pos hz] at h
        exact absurd h (by simp [Except.bind])
      · rw [if_neg hz] at h
        have h2 : addStockSeq item unit t
            [(item, ⟨q + hd.1, unit, tc + hd.2, (tc + hd.2) / (q + hd.1)⟩)] = .ok inv' := h
        have h3 := ih (q + hd.1) (tc + hd.2) inv' h2
        rw [h3]
        simp [qsum, csum, add_assoc]

/-- A nonempty stock sequence on a fresh store succeeds only with the
single weighted-average row. -/
lemma addStockSeq_from_empty (item unit : String) (l : List (ℚ × ℚ))
    (inv' : Inventory) (hne : l ≠ []) (h : addStockSeq item unit l [] = .ok inv') :
    inv' = [(item, ⟨qsum l, unit, csum l, csum l / qsum l⟩)] := by
  cases l with
  | nil => exact absurd rfl hne
  | cons hd t =>
      have step : addStockSeq item unit (hd :: t) ([] : Inventory)
          = (update_inventory item hd.1 unit hd.2 []).bind
              (fun inv1 => addStockSeq item unit t inv1) := rfl
      have hupd : update_inventory item hd.1 unit hd.2 ([] : Inventory)
          = if hd.1 = 0 then .error .divisionByZero
            else .ok [(item, ⟨hd.1, unit, hd.2, hd.2 / hd.1⟩)] := by
        rw [update_inventory]
        by_cases hz : hd.1 = 0 <;> simp [hz]
      rw [step, hupd] at h
      by_cases hz : hd.1 = 0
      · rw [if_pos hz] at h
        exact absurd h (by simp [Except.bind])
      · rw [if_neg hz] at h
        have h2 : addStockSeq item unit t [(item, ⟨hd.1, unit, hd.2, hd.2 / hd.1⟩)]
            = .ok inv' := h
        have h3 := addStockSeq_single item unit t hd.1 hd.2 inv' h2
        rw [h3]
        simp [qsum, csum, add_assoc]

/-- C2: `update_inventory` implements weighted-average costing: any
nonempty sequence of stock purchases of a fresh item that succeeds
yields exactly one row with quantity `qsum l`, total_cost `csum l` and
cost_per_unit `csum l / qsum l`; the outcome is the same for any
permutation of the purchase sequence that succeeds. -/
theorem addStock_weighted_average (item unit : String) (l : List (ℚ × ℚ))
    (inv' : Inventory) (hne : l ≠ []) (h : addStockSeq item unit l [] = .ok inv') :
    inv' = [(item, ⟨qsum l, unit, csum l, csum l / qsum l⟩)]
    ∧ ∀ (l₂ : List (ℚ × ℚ)) (inv₂ : Inventory), List.Perm l₂ l →
        addStockSeq item unit l₂ [] = .ok inv₂ → inv₂ = inv' := by
  have h1 := addStockSeq_from_empty item unit l inv' hne h
  refine ⟨h1, ?_⟩
  intro l₂ inv₂ hp h₂
  have hne₂ : l₂ ≠ [] := by
    intro e
    subst e
    exact hne hp.symm.eq_nil
  have h2 := addStockSeq_from_empty item unit l₂ inv₂ hne₂ h₂
  have hq : qsum l₂ = qsum l := by
    have := (hp.map Prod.fst).sum_eq
    simpa [qsum] using this
  have hc : csum l₂ = csum l := by
    have := (hp.map Prod.snd).sum_eq
    simpa [csum] using this
  rw [h2, h1, hq, hc]

/-- Witness for `addStock_weighted_average`: stocking 2 kg of Oil at 400
then 1 kg at 250 gives quantity 3, total_cost 650 and cost_per_unit
650/3 = 216.666... -/
theorem addStock_weighted_average_witness :
    ([((2 : ℚ), (400 : ℚ)), ((1 : ℚ), (250 : ℚ))] : List (ℚ × ℚ)) ≠ []
    ∧ addStockSeq "Oil" "kg" [(2, 400), (1, 250)] []
        = .ok [("Oil", ⟨3, "kg", 650, 650 / 3⟩)]
    ∧ ([("Oil", (⟨3, "kg", 650, 650 / 3⟩ : InventoryItem))] : Inventory)
        = [("Oil", ⟨qsum [(2, 400), (1, 250)], "kg", csum [(2, 400), (1, 250)],
            csum [(2, 400), (1, 250)] / qsum [(2, 400), (1, 250)]⟩)] := by
  have hne : ([((2 : ℚ), (400 : ℚ)), ((1 : ℚ), (250 : ℚ))] : List (ℚ × ℚ)) ≠ [] := by
    simp
  have h : addStockSeq "Oil" "kg" [(2, 400), (1, 250)] []
      = .ok [("Oil", ⟨3, "kg", 650, 650 / 3⟩)] := by
    norm_num [addStockSeq, update_inventory, List.lookup, Except.bind, bind, pure, Except.pure]
  exact ⟨hne, h, (addStock_weighted_average "Oil" "kg" [(2, 400), (1, 250)]
    [("Oil", ⟨3, "kg", 650, 650 / 3⟩)] hne h).1⟩

end KREVOS

namespace KREVOS

/-- Closed form of the deduction loop: every row's quantity drops by
`qty` times the summed amounts of the entries naming that row's key. -/
lemma deduct_foldl_eq (qty : ℚ) (l : List RecipeEntry) :
    ∀ inv : Inventory,
      l.foldl (fun acc e => deduct_one e.ingredient (e.amount * qty) acc) inv
        = inv.map (fun p => (p.1, { p.2 with quantity := p.2.quantity -
            ((l.filter (fun e => e.ingredient == p.1)).map (fun e => e.amount)).sum * qty })) := by
  induction l with
  | nil =>
      intro inv
      simp
  | cons e t ih =>
      intro inv
      rw [List.foldl_cons, ih, deduct_one, List.map_map]
      apply List.map_congr_left
      intro p _
      by_cases hp : p.1 = e.ingredient
      · have hb : (e.ingredient == p.1) = true := beq_iff_eq.mpr hp.symm
        simp [Function.comp, hp, List.filter_cons, hb]
        ring
      · have hb : (e.ingredient == p.1) = false := beq_eq_false_iff_ne.mpr (fun a => hp a.symm)
        simp [Function.comp, hp, List.filter_cons, hb]

/-- `deduct_ingredients` in closed form via `recipeAmount`. -/
lemma deduct_ingredients_eq (recipes : List RecipeEntry) (dish : String)
    (qty : ℚ) (inv : Inventory) :
    deduct_ingredients recipes dish qty inv
      = inv.map (fun p => (p.1, { p.2 with
          quantity := p.2.quantity - recipeAmount recipes dish p.1 * qty })) := by
  rw [deduct_ingredients, deduct_foldl_eq]
  rfl

end KREVOS

namespace KREVOS

/-- C3: a POS sale with a priced dish rewrites the inventory so that
every row's quantity drops by the dish's summed recipe amount for that
row times `qty` (rows of ingredients outside the recipe drop by 0, i.e.
stay unchanged), appends exactly one SaleRecord for the given date with
`total = price * qty` (no packaging cost), and touches no other table. -/
theorem sell_spec (st : State) (today dish : String) (qty : ℤ) (price : ℚ)
    (st' : State) (hprice : st.menu.lookup dish = some price)
    (hsell : sell st today dish qty = some st') :
    st'.inventory = st.inventory.map (fun p => (p.1, { p.2 with
        quantity := p.2.quantity - recipeAmount st.recipes dish p.1 * (qty : ℚ) }))
    ∧ st'.sales = st.sales ++ [⟨today, dish, qty, price * (qty : ℚ)⟩]
    ∧ st'.menu = st.menu ∧ st'.recipes = st.recipes
    ∧ st'.expenses = st.expenses
    ∧ ∀ p ∈ st.inventory, recipeAmount st.recipes dish p.1 = 0 →
        p ∈ st'.inventory := by
  rw [sell, hprice] at hsell
  simp only [Option.some.injEq] at hsell
  subst hsell
  refine ⟨deduct_ingredients_eq st.recipes dish (qty : ℚ) st.inventory,
    rfl, rfl, rfl, rfl, ?_⟩
  intro p hp h0
  show p ∈ deduct_ingredients st.recipes dish (qty : ℚ) st.inventory
  rw [deduct_ingredients_eq]
  have hfp : (p.1, { p.2 with
      quantity := p.2.quantity - recipeAmount st.recipes dish p.1 * (qty : ℚ) }) = p := by
    rw [h0]
    simp
  have hm : (p.1, { p.2 with
      quantity := p.2.quantity - recipeAmount st.recipes dish p.1 * (qty : ℚ) })
      ∈ st.inventory.map (fun r => (r.1, { r.2 with
        quantity := r.2.quantity - recipeAmount st.recipes dish r.1 * (qty : ℚ) })) :=
    List.mem_map_of_mem (fun r => (r.1, { r.2 with
      quantity := r.2.quantity - recipeAmount st.recipes dish r.1 * (qty : ℚ) })) hp
  rwa [hfp] at hm

/-- Witness for `sell_spec`: selling 2 Burgers (price 100) whose recipe
uses 1 unit of Oil deducts 2 from the 2 on hand, leaves Rice untouched,
and appends one sale of total 200. -/
theorem sell_spec_witness :
    (State.mk [("Oil", ⟨2, "kg", 400, 200⟩), ("Rice", ⟨5, "kg", 300, 60⟩)]
        [("Burger", 100)] [⟨"Burger", "Oil", 1, "gm"⟩] [] []).menu.lookup "Burger"
      = some 100
    ∧ sell ⟨[("Oil", ⟨2, "kg", 400, 200⟩), ("Rice", ⟨5, "kg", 300, 60⟩)],
        [("Burger", 100)], [⟨"Burger", "Oil", 1, "gm"⟩], [], []⟩ "2026-10-12" "Burger" 2
      = some ⟨[("Oil", ⟨0, "kg", 400, 200⟩), ("Rice", ⟨5, "kg", 300, 60⟩)],
          [("Burger", 100)], [⟨"Burger", "Oil", 1, "gm"⟩],
          [⟨"2026-10-12", "Burger", 2, 200⟩], []⟩
    ∧ ([(⟨"2026-10-12", "Burger", 2, 200⟩ : SaleRecord)] : List SaleRecord)
      = [] ++ [⟨"2026-10-12", "Burger", 2, (100 : ℚ) * ((2 : ℤ) : ℚ)⟩] := by
  have h1 : (State.mk [("Oil", ⟨2, "kg", 400, 200⟩), ("Rice", ⟨5, "kg", 300, 60⟩)]
      [("Burger", 100)] [⟨"Burger", "Oil", 1, "gm"⟩] [] []).menu.lookup "Burger"
      = some 100 := rfl
  have h2 : sell ⟨[("Oil", ⟨2, "kg", 400, 200⟩), ("Rice", ⟨5, "kg", 300, 60⟩)],
      [("Burger", 100)], [⟨"Burger", "Oil", 1, "gm"⟩], [], []⟩ "2026-10-12" "Burger" 2
      = some ⟨[("Oil", ⟨0, "kg", 400, 200⟩), ("Rice", ⟨5, "kg", 300, 60⟩)],
          [("Burger", 100)], [⟨"Burger", "Oil", 1, "gm"⟩],
          [⟨"2026-10-12", "Burger", 2, 200⟩], []⟩ := by
    norm_num [sell, List.lookup, deduct_ingredients, recipeFor, deduct_one,
      List.filter, List.foldl]
    decide
  exact ⟨h1, h2, (sell_spec _ "2026-10-12" "Burger" 2 100 _ h1 h2).2.1⟩

/-- Closed form of the `calculate_dish_cost` loop. -/
lemma costStep_foldl (inv : Inventory) (l : List RecipeEntry) :
    ∀ (t0 : ℚ) (d0 : List LineItem),
      l.foldl (costStep inv) (t0, d0)
        = (t0 + (l.filterMap (fun e => (inv.lookup e.ingredient).map
              (fun it => it.cost_per_unit * e.amount))).sum,
           d0 ++ l.filterMap (fun e => (inv.lookup e.ingredient).map
              (fun it => (⟨e.ingredient, e.amount,
                round2 (it.cost_per_unit * e.amount)⟩ : LineItem)))) := by
  induction l with
  | nil =>
      intro t0 d0
      simp
  | cons e t ih =>
      intro t0 d0
      rw [List.foldl_cons]
      cases hlk : inv.lookup e.ingredient with
      | none =>
          have hstep : costStep inv (t0, d0) e = (t0, d0) := by
            rw [costStep, hlk]
          rw [hstep, ih]
          simp [List.filterMap_cons, hlk]
      | some it =>
          have hstep : costStep inv (t0, d0) e
              = (t0 + it.cost_per_unit * e.amount,
                 d0 ++ [⟨e.ingredient, e.amount, round2 (it.cost_per_unit * e.amount)⟩]) := by
            rw [costStep, hlk]
          rw [hstep, ih]
          simp [List.filterMap_cons, hlk, add_assoc]

/-- C4: `calculate_dish_cost` returns the sum of
`cost_per_unit * amount` over exactly the recipe rows whose ingredient
has an inventory record, plus the packaging constant, and the line-item
list holds exactly those rows (with the cost rounded to 2 decimals);
absent ingredients contribute nothing, and an empty recipe gives
`PACKAGING_COST` exactly. -/
theorem calculate_dish_cost_spec (recipes : List RecipeEntry) (inv : Inventory)
    (dish : String) :
    calculate_dish_cost recipes inv dish
      = (((recipeFor recipes dish).filterMap (fun e => (inv.lookup e.ingredient).map
            (fun it => it.cost_per_unit * e.amount))).sum + PACKAGING_COST,
         (recipeFor recipes dish).filterMap (fun e => (inv.lookup e.ingredient).map
            (fun it => ⟨e.ingredient, e.amount, round2 (it.cost_per_unit * e.amount)⟩))) := by
  rw [calculate_dish_cost, costStep_foldl]
  simp

end KREVOS

namespace KREVOS

/-- Appending one expense row extends the presence test disjunctively. -/
lemma hasExpense_append_single (e : List ExpenseRecord) (r : ExpenseRecord)
    (d c : String) :
    hasExpense (e ++ [r]) d c
      = (hasExpense e d c || (r.date == d && r.category == c)) := by
  simp [hasExpense]

/-- Appending one expense row adds 1 to the count when the row matches. -/
lemma countExpense_append_single (e : List ExpenseRecord) (r : ExpenseRecord)
    (d c : String) :
    countExpense (e ++ [r]) d c
      = countExpense e d c + (if (r.date == d && r.category == c) = true then 1 else 0) := by
  rw [countExpense, countExpense, List.filter_append, List.length_append]
  cases h : (r.date == d && r.category == c) <;> simp [List.filter, h]

/-- No matching row is present exactly when the matching count is 0. -/
lemma hasExpense_false_iff (e : List ExpenseRecord) (d c : String) :
    hasExpense e d c = false ↔ countExpense e d c = 0 := by
  simp [hasExpense, countExpense, List.length_eq_zero, List.filter_eq_nil_iff]

/-- An `insertFixed` with the flag off, or with the row already present,
is a no-op. -/
lemma insertFixed_of_has (flag : Bool) (today cat : String) (amt : ℚ)
    (e : List ExpenseRecord) (h : hasExpense e today cat = true) :
    insertFixed flag today cat amt e = e := by
  simp [insertFixed, h]

/-- After an `insertFixed` with the flag on, the row is present. -/
lemma hasExpense_insertFixed_self (today cat : String) (amt : ℚ)
    (e : List ExpenseRecord) :
    hasExpense (insertFixed true today cat amt e) today cat = true := by
  by_cases hb : hasExpense e today cat = true
  · simp [insertFixed, hb]
  · have hb' : hasExpense e today cat = false := by
      cases h : hasExpense e today cat
      · rfl
      · exact absurd h hb
    simp [insertFixed, hb', hasExpense_append_single]

/-- `insertFixed` is idempotent. -/
lemma insertFixed_idem (flag : Bool) (today cat : String) (amt : ℚ)
    (e : List ExpenseRecord) :
    insertFixed flag today cat amt (insertFixed flag today cat amt e)
      = insertFixed flag today cat amt e := by
  cases flag
  · simp [insertFixed]
  · exact insertFixed_of_has true today cat amt _
      (hasExpense_insertFixed_self today cat amt e)

/-- `insertFixed` of one category does not change the presence test of a
different category. -/
lemma hasExpense_insertFixed_other (flag : Bool) (today cat : String) (amt : ℚ)
    (e : List ExpenseRecord) (d c : String) (h : c ≠ cat) :
    hasExpense (insertFixed flag today cat amt e) d c = hasExpense e d c := by
  rw [insertFixed]
  by_cases hc : (flag && !(hasExpense e today cat)) = true
  · rw [if_pos hc, hasExpense_append_single]
    have hm : ((⟨today, cat, amt, "Daily fixed"⟩ : ExpenseRecord).category == c) = false :=
      beq_eq_false_iff_ne.mpr (fun a => h a.symm)
    simp [hm]
  · rw [if_neg hc]

/-- `insertFixed` of one category does not change the count of a
different category. -/
lemma countExpense_insertFixed_other (flag : Bool) (today cat : String) (amt : ℚ)
    (e : List ExpenseRecord) (d c : String) (h : c ≠ cat) :
    countExpense (insertFixed flag today cat amt e) d c = countExpense e d c := by
  rw [insertFixed]
  by_cases hc : (flag && !(hasExpense e today cat)) = true
  · rw [if_pos hc, countExpense_append_single]
    have hm : ((⟨today, cat, amt, "Daily fixed"⟩ : ExpenseRecord).category == c) = false :=
      beq_eq_false_iff_ne.mpr (fun a => h a.symm)
    simp [hm]
  · rw [if_neg hc]

/-- Count of the inserted category after an `insertFixed` with the flag
on: unchanged when present, one more when absent. -/
lemma countExpense_insertFixed_self (today cat : String) (amt : ℚ)
    (e : List ExpenseRecord) :
    countExpense (insertFixed true today cat amt e) today cat
      = if hasExpense e today cat = true then countExpense e today cat
        else countExpense e today cat + 1 := by
  by_cases hb : hasExpense e today cat = true
  · simp [insertFixed, hb]
  · have hb' : hasExpense e today cat = false := by
      cases h : hasExpense e today cat
      · rfl
      · exact absurd h hb
    rw [insertFixed]
    simp only [hb', Bool.and_true, Bool.not_false, Bool.and_self, if_true]
    rw [countExpense_append_single]
    simp [hb']

end KREVOS

namespace KREVOS

/-- C6: `add_fixed_costs` is idempotent per calendar day, keeps at most
one "Staff Food" and one "Manager Salary" row for today's date (given at
most one beforehand), inserts exactly one row for a requested category
that is absent, and leaves the count unchanged for a requested category
already present. -/
theorem add_fixed_costs_spec (s m : Bool) (today : String)
    (e : List ExpenseRecord)
    (hs : countExpense e today "Staff Food" ≤ 1)
    (hm : countExpense e today "Manager Salary" ≤ 1) :
    add_fixed_costs s m today (add_fixed_costs s m today e)
        = add_fixed_costs s m today e
    ∧ countExpense (add_fixed_costs s m today e) today "Staff Food" ≤ 1
    ∧ countExpense (add_fixed_costs s m today e) today "Manager Salary" ≤ 1
    ∧ (s = true → hasExpense e today "Staff Food" = false →
        countExpense (add_fixed_costs s m today e) today "Staff Food" = 1)
    ∧ (m = true → hasExpense e today "Manager Salary" = false →
        countExpense (add_fixed_costs s m today e) today "Manager Salary" = 1)
    ∧ (s = true → hasExpense e today "Staff Food" = true →
        countExpense (add_fixed_costs s m today e) today "Staff Food"
          = countExpense e today "Staff Food")
    ∧ (m = true → hasExpense e today "Manager Salary" = true →
        countExpense (add_fixed_costs s m today e) today "Manager Salary"
          = countExpense e today "Manager Salary") := by
  have hne : ("Staff Food" : String) ≠ "Manager Salary" := by decide
  have hne' : ("Manager Salary" : String) ≠ "Staff Food" := by decide
  have hcount_sf : countExpense (add_fixed_costs s m today e) today "Staff Food"
      = countExpense (insertFixed s today "Staff Food" FIXED_STAFF_FOOD e)
          today "Staff Food" := by
    rw [add_fixed_costs, countExpense_insertFixed_other]
    exact hne
  have hcount_ms_base : countExpense
      (insertFixed s today "Staff Food" FIXED_STAFF_FOOD e) today "Manager Salary"
      = countExpense e today "Manager Salary" :=
    countExpense_insertFixed_other s today "Staff Food" FIXED_STAFF_FOOD e
      today "Manager Salary" hne'
  have hhas_ms_base : hasExpense
      (insertFixed s today "Staff Food" FIXED_STAFF_FOOD e) today "Manager Salary"
      = hasExpense e today "Manager Salary" :=
    hasExpense_insertFixed_other s today "Staff Food" FIXED_STAFF_FOOD e
      today "Manager Salary" hne'
  refine ⟨?_, ?_, ?_, ?_, ?_, ?_, ?_⟩
  · -- idempotence
    rw [add_fixed_costs, add_fixed_costs]
    cases s with
    | false =>
        simp only [insertFixed, Bool.false_and, Bool.false_eq_true, if_false]
        exact insertFixed_idem m today "Manager Salary" FIXED_MANAGER_SALARY e
    | true =>
        have h1 : insertFixed true today "Staff Food" FIXED_STAFF_FOOD
            (insertFixed m today "Manager Salary" FIXED_MANAGER_SALARY
              (insertFixed true today "Staff Food" FIXED_STAFF_FOOD e))
            = insertFixed m today "Manager Salary" FIXED_MANAGER_SALARY
                (insertFixed true today "Staff Food" FIXED_STAFF_FOOD e) := by
          apply insertFixed_of_has
          rw [hasExpense_insertFixed_other m today "Manager Salary"
            FIXED_MANAGER_SALARY _ today "Staff Food" hne]
          exact hasExpense_insertFixed_self today "Staff Food" FIXED_STAFF_FOOD e
        rw [h1]
        exact insertFixed_idem m today "Manager Salary" FIXED_MANAGER_SALARY _
  · -- at most one Staff Food row
    rw [hcount_sf]
    cases s with
    | false => simpa [insertFixed] using hs
    | true =>
        rw [countExpense_insertFixed_self]
        by_cases hb : hasExpense e today "Staff Food" = true
        · simpa [hb] using hs
        · have hb' : hasExpense e today "Staff Food" = false := by
            cases h : hasExpense e today "Staff Food"
            · rfl
            · exact absurd h hb
          have h0 : countExpense e today "Staff Food" = 0 :=
            (hasExpense_false_iff e today "Staff Food").mp hb'
          simp [hb', h0]
  · -- at most one Manager Salary row
    rw [add_fixed_costs]
    cases m with
    | false =>
        have hif : insertFixed false today "Manager Salary" FIXED_MANAGER_SALARY
            (insertFixed s today "Staff Food" FIXED_STAFF_FOOD e)
            = insertFixed s today "Staff Food" FIXED_STAFF_FOOD e := by
          simp [insertFixed]
        rw [hif, hcount_ms_base]
        exact hm
    | true =>
        rw [countExpense_insertFixed_self, hhas_ms_base, hcount_ms_base]
        by_cases hb : hasExpense e today "Manager Salary" = true
        · simpa [hb] using hm
        · have hb' : hasExpense e today "Manager Salary" = false := by
            cases h : hasExpense e today "Manager Salary"
            · rfl
            · exact absurd h hb
          have h0 : countExpense e today "Manager Salary" = 0 :=
            (hasExpense_false_iff e today "Manager Salary").mp hb'
          simp [hb', h0]
  · -- absent Staff Food gets exactly one row
    intro hs1 habs
    subst hs1
    rw [hcount_sf, countExpense_insertFixed_self]
    have h0 : countExpense e today "Staff Food" = 0 :=
      (hasExpense_false_iff e today "Staff Food").mp habs
    simp [habs, h0]
  · -- absent Manager Salary gets exactly one row
    intro hm1 habs
    subst hm1
    rw [add_fixed_costs, countExpense_insertFixed_self, hhas_ms_base, hcount_ms_base]
    have h0 : countExpense e today "Manager Salary" = 0 :=
      (hasExpense_false_iff e today "Manager Salary").mp habs
    simp [habs, h0]
  · -- present Staff Food is a no-op for that category
    intro hs1 hpres
    subst hs1
    rw [hcount_sf, countExpense_insertFixed_self]
    simp [hpres]
  · -- present Manager Salary is a no-op for that category
    intro hm1 hpres
    subst hm1
    rw [add_fixed_costs, countExpense_insertFixed_self, hhas_ms_base, hcount_ms_base]
    simp [hpres]

/-- Witness for `add_fixed_costs_spec`: on an empty expense table, one
application inserts exactly one row per category and a second
application changes nothing. -/
theorem add_fixed_costs_spec_witness :
    countExpense [] "2026-10-12" "Staff Food" ≤ 1
    ∧ countExpense [] "2026-10-12" "Manager Salary" ≤ 1
    ∧ add_fixed_costs true true "2026-10-12"
        (add_fixed_costs true true "2026-10-12" [])
        = add_fixed_costs true true "2026-10-12" []
    ∧ countExpense (add_fixed_costs true true "2026-10-12" [])
        "2026-10-12" "Staff Food" = 1
    ∧ countExpense (add_fixed_costs true true "2026-10-12" [])
        "2026-10-12" "Manager Salary" = 1 := by
  have h1 : countExpense [] "2026-10-12" "Staff Food" ≤ 1 := by
    simp [countExpense]
  have h2 : countExpense [] "2026-10-12" "Manager Salary" ≤ 1 := by
    simp [countExpense]
  have main := add_fixed_costs_spec true true "2026-10-12" [] h1 h2
  exact ⟨h1, h2, main.1, main.2.2.2.1 rfl rfl, main.2.2.2.2.1 rfl rfl⟩

end KREVOS

namespace KREVOS

/-- The `if empty then 0 else sum` guard in the Daily Report block is
just the sum (an empty table sums to zero). -/
lemma ite_isEmpty_sum {α : Type} (l : List α) (f : α → ℚ) :
    (if l.isEmpty then 0 else (l.map f).sum) = (l.map f).sum := by
  cases l <;> simp

/-- C9: the daily report filters both tables by exact date and its
displayed net profit is the sum of matching sale totals minus the sum of
matching expense amounts; the monthly report filters both tables by the
month prefix; on empty tables the daily report yields net profit 0 (not
an error) and the monthly report yields two empty row sets. -/
theorem reports_spec (sales : List SaleRecord) (expenses : List ExpenseRecord)
    (d month : String) :
    dailyReport sales expenses d
      = (sales.filter (fun r => r.date == d),
         expenses.filter (fun r => r.date == d),
         ((sales.filter (fun r => r.date == d)).map (fun r => r.total)).sum
           - ((expenses.filter (fun r => r.date == d)).map (fun r => r.amount)).sum)
    ∧ dailyReport [] [] d = ([], [], 0)
    ∧ monthlyReport sales expenses month
      = (sales.filter (fun r => month.isPrefixOf r.date),
         expenses.filter (fun r => month.isPrefixOf r.date))
    ∧ monthlyReport [] [] month = ([], []) := by
  refine ⟨?_, ?_, rfl, rfl⟩
  · rw [dailyReport]
    rw [ite_isEmpty_sum, ite_isEmpty_sum]
  · rw [dailyReport]
    norm_num

/-- C5 counterexample: with Oil stocked and a Burger recipe using it,
the POS sale block commits twice; the first committed state already has
the deducted inventory but still no sale row, so an interruption between
the two commits leaves a partial record. -/
theorem sell_partial_commit_counterexample :
    sell_commit_states ⟨[("Oil", ⟨2, "kg", 400, 200⟩)], [("Burger", 100)],
        [⟨"Burger", "Oil", 1, "gm"⟩], [], []⟩ "2026-10-12" "Burger" 1
      = [⟨[("Oil", ⟨1, "kg", 400, 200⟩)], [("Burger", 100)],
          [⟨"Burger", "Oil", 1, "gm"⟩], [], []⟩,
         ⟨[("Oil", ⟨1, "kg", 400, 200⟩)], [("Burger", 100)],
          [⟨"Burger", "Oil", 1, "gm"⟩], [⟨"2026-10-12", "Burger", 1, 100⟩], []⟩]
    ∧ ([("Oil", ⟨1, "kg", 400, 200⟩)] : Inventory) ≠ [("Oil", ⟨2, "kg", 400, 200⟩)]
    ∧ (⟨[("Oil", ⟨1, "kg", 400, 200⟩)], [("Burger", 100)],
          [⟨"Burger", "Oil", 1, "gm"⟩], [], []⟩ : State)
        ≠ ⟨[("Oil", ⟨1, "kg", 400, 200⟩)], [("Burger", 100)],
          [⟨"Burger", "Oil", 1, "gm"⟩], [⟨"2026-10-12", "Burger", 1, 100⟩], []⟩ := by
  refine ⟨?_, ?_, ?_⟩
  · norm_num [sell_commit_states, List.lookup, deduct_ingredients, recipeFor,
      deduct_one, List.filter, List.foldl]
  · norm_num
  · intro hcon
    have := congrArg State.sales hcon
    simp at this

/-- C5 amended: `add_fixed_costs` is one atomic commit, but the POS sale
block commits in two steps (the ingredient deduction inside
`deduct_ingredients` first, the sale row second) and the Bazar
add-inventory block likewise commits the inventory update before the
Bazar expense row; the first committed state of each pair carries the
inventory change with no corresponding sale/expense row. -/
theorem mutating_actions_commit_structure (st : State) (s m : Bool)
    (today dish item unit : String) (qty : ℤ) (price : ℚ) (q c : ℚ)
    (inv1 : Inventory) (hprice : st.menu.lookup dish = some price)
    (hupd : update_inventory item q unit c st.inventory = .ok inv1) :
    add_fixed_costs_commit_states s m today st
      = [{ st with expenses := add_fixed_costs s m today st.expenses }]
    ∧ sell_commit_states st today dish qty
      = [{ st with inventory := deduct_ingredients st.recipes dish (qty : ℚ) st.inventory },
         { st with
            inventory := deduct_ingredients st.recipes dish (qty : ℚ) st.inventory,
            sales := st.sales ++ [⟨today, dish, qty, price * (qty : ℚ)⟩] }]
    ∧ addStock_commit_states st today item q unit c
      = [{ st with inventory := inv1 },
         { st with
            inventory := inv1,
            expenses := st.expenses ++ [⟨today, "Bazar", c, item⟩] }] := by
  refine ⟨rfl, ?_, ?_⟩
  · rw [sell_commit_states, hprice]
  · rw [addStock_commit_states, hupd]

/-- Witness for `mutating_actions_commit_structure` on a concrete
store. -/
theorem mutating_actions_commit_structure_witness :
    (State.mk [] [("Burger", 100)] [] [] []).menu.lookup "Burger" = some 100
    ∧ update_inventory "Oil" 2 "kg" 400
        (State.mk [] [("Burger", 100)] [] [] []).inventory
        = .ok [("Oil", ⟨2, "kg", 400, 200⟩)]
    ∧ sell_commit_states (State.mk [] [("Burger", 100)] [] [] []) "2026-10-12" "Burger" 1
      = [{ (State.mk [] [("Burger", 100)] [] [] []) with
            inventory := deduct_ingredients (State.mk [] [("Burger", 100)] [] [] []).recipes
              "Burger" ((1 : ℤ) : ℚ) (State.mk [] [("Burger", 100)] [] [] []).inventory },
         { (State.mk [] [("Burger", 100)] [] [] []) with
            inventory :=
              deduct_ingredients (State.mk [] [("Burger", 100)] [] [] []).recipes
                "Burger" ((1 : ℤ) : ℚ) (State.mk [] [("Burger", 100)] [] [] []).inventory,
            sales := (State.mk [] [("Burger", 100)] [] [] []).sales
              ++ [⟨"2026-10-12", "Burger", 1, 100 * ((1 : ℤ) : ℚ)⟩] }] := by
  have h1 : (State.mk [] [("Burger", 100)] [] [] []).menu.lookup "Burger"
      = some 100 := rfl
  have h2 : update_inventory "Oil" 2 "kg" 400
      (State.mk [] [("Burger", 100)] [] [] []).inventory
      = .ok [("Oil", ⟨2, "kg", 400, 200⟩)] := by
    norm_num [update_inventory, List.lookup]
  exact ⟨h1, h2, (mutating_actions_commit_structure
    (State.mk [] [("Burger", 100)] [] [] []) true true "2026-10-12" "Burger"
    "Oil" "kg" 1 100 2 400 [("Oil", ⟨2, "kg", 400, 200⟩)] h1 h2).2.1⟩

end KREVOS
